import Mathlib

/-!
Verification of the ustring string-buffer library (SkyEng1neering/ustring).

The library is a thin facade over an external growable byte sequence, the
uvector library, which in turn draws storage from an external arena
allocator.  The facade itself is embedded below directly from
src/src/ustring.cpp (the v1.3.0 implementation declared by src/inc/ustring.h);
the external container is modelled from the interface contract the spec gives
for it.  Characters are modelled as byte values (Nat, 0..255); the terminator
is the value 0.  Machine arithmetic on uint32_t stays far below 2^32 on every
path analysed here, and the one subtraction on unsigned values (in the resize
shrink loop) is reached only with minuend at least the subtrahend, so plain
Nat arithmetic is a faithful translation.
-/

/-- Modelled from the spec: the Growable Byte Sequence collaborator (the
uvector library), which is external to this repository.  Spec section 6 fixes
its contract: bounded-index access, length and capacity queries, reserve,
clear, single-element append and remove-from-end, bulk resize with a fill
value, and success/failure reporting for any operation that may allocate.
`data` holds the stored bytes, `cap` the current capacity, and `heapLimit`
abstracts the arena: a reservation beyond `heapLimit` fails.  Growth requests
the minimal sufficient capacity; the spec leaves the amortized growth policy
to the container, and no claim below depends on the policy chosen. -/
structure uvector where
  data : List Nat
  cap : Nat
  heapLimit : Nat
  deriving DecidableEq, Repr

namespace uvector

/-- Modelled from the spec: stored byte count of the container. -/
def size (v : uvector) : Nat := v.data.length

/-- Modelled from the spec: current capacity of the container. -/
def capacity (v : uvector) : Nat := v.cap

/-- Modelled from the spec: emptiness query of the container. -/
def emptyq (v : uvector) : Bool := v.data.isEmpty

/-- Modelled from the spec: ensure capacity at least `n`; a request above the
current capacity succeeds exactly when the arena can provide it. -/
def reserve (v : uvector) (n : Nat) : Option uvector :=
  if n ≤ v.cap then some v
  else if n ≤ v.heapLimit then some { v with cap := n }
  else none

/-- Modelled from the spec: append one byte, growing the capacity through the
arena when the container is full; fails when the arena cannot grow it. -/
def push_back (v : uvector) (x : Nat) : Option uvector :=
  if v.data.length < v.cap then some { v with data := v.data ++ [x] }
  else
    match reserve v (v.data.length + 1) with
    | some v2 => some { v2 with data := v2.data ++ [x] }
    | none => none

/-- Modelled from the spec: remove the last byte; fails on an empty container. -/
def pop_back (v : uvector) : Option uvector :=
  if v.data.isEmpty then none
  else some { v with data := v.data.dropLast }

/-- Modelled from the spec: drop all bytes, keeping the capacity. -/
def clear (v : uvector) : uvector := { v with data := [] }

/-- Modelled from the spec: bulk resize with a fill value.  Shrinking
truncates; growing appends copies of `fill`, reserving through the arena
when the capacity is insufficient, and fails when the arena cannot grow it. -/
def resize (v : uvector) (n : Nat) (fill : Nat) : Option uvector :=
  if n ≤ v.data.length then some { v with data := v.data.take n }
  else if n ≤ v.cap then
    some { v with data := v.data ++ List.replicate (n - v.data.length) fill }
  else
    match reserve v n with
    | some v2 => some { v2 with data := v2.data ++ List.replicate (n - v2.data.length) fill }
    | none => none

/-- Modelled from the spec: write through the back-element reference
(the C++ code does `ch_container.back() = '\0'`).  The facade only invokes it
on a container that a successful resize just made non-empty. -/
def set_back (v : uvector) (x : Nat) : uvector :=
  { v with data := v.data.set (v.data.length - 1) x }

end uvector

/-- The string buffer facade, from src/src/ustring.cpp: it owns one
`uvector<char>` instance.  The arena reference lives inside the container
(`heapLimit` stands for the bound arena). -/
structure ustring where
  ch_container : uvector
  deriving DecidableEq, Repr

namespace ustring

/-- ustring::size (src/src/ustring.cpp lines 47-52): the stored byte count
minus one for the terminator when the container is non-empty. -/
def size (s : ustring) : Nat :=
  if 0 < s.ch_container.size then s.ch_container.size - 1 else s.ch_container.size

/-- ustring::empty (lines 43-45): delegates to the container emptiness query. -/
def empty (s : ustring) : Bool := s.ch_container.emptyq

/-- ustring::reserve (lines 58-60): reserve room for the characters plus the
terminator. -/
def reserve (s : ustring) (n : Nat) : Bool × ustring :=
  match uvector.reserve s.ch_container (n + 1) with
  | some v => (true, ⟨v⟩)
  | none => (false, s)

/-- ustring::capacity (lines 62-64): the raw container capacity. -/
def capacity (s : ustring) : Nat := s.ch_container.capacity

/-- ustring::clear (lines 70-72): clear the container. -/
def clear (s : ustring) : ustring := ⟨uvector.clear s.ch_container⟩

/-- ustring::push_back (lines 74-84): pop the terminator when present, push
the item, push a fresh terminator.  Each failing container call returns false
at once, keeping whatever the earlier in-place mutations produced. -/
def push_back (s : ustring) (item : Nat) : Bool × ustring :=
  match (if 0 < s.ch_container.size then uvector.pop_back s.ch_container
         else some s.ch_container) with
  | none => (false, s)
  | some v1 =>
    match uvector.push_back v1 item with
    | none => (false, ⟨v1⟩)
    | some v2 =>
      match uvector.push_back v2 0 with
      | none => (false, ⟨v2⟩)
      | some v3 => (true, ⟨v3⟩)

/-- ustring::pop_back (lines 86-100): refuse on logical length 0, otherwise
pop the terminator, pop the last character, push a fresh terminator. -/
def pop_back (s : ustring) : Bool × ustring :=
  if size s = 0 then (false, s)
  else
    match uvector.pop_back s.ch_container with
    | none => (false, s)
    | some v1 =>
      match uvector.pop_back v1 with
      | none => (false, ⟨v1⟩)
      | some v2 =>
        match uvector.push_back v2 0 with
        | none => (false, ⟨v2⟩)
        | some v3 => (true, ⟨v3⟩)

/-- The checked push loop shared by append(char*, len) (lines 114-121) and
the assign family (lines 221-226, 232-236): push each byte, returning false
with the partial state as soon as one push fails. -/
def push_all : ustring → List Nat → Bool × ustring
  | s, [] => (true, s)
  | s, x :: xs =>
    match push_back s x with
    | (true, s1) => push_all s1 xs
    | (false, s1) => (false, s1)

/-- The unchecked push loop of append(const char*) (lines 107-110), the copy
constructor, operator+ and operator=: push each byte and ignore the result. -/
def push_all_unchecked (s : ustring) (bytes : List Nat) : ustring :=
  bytes.foldl (fun acc x => (push_back acc x).2) s

/-- ustring::append(const char*) (lines 102-112).  The argument is the raw
byte run of a terminated C string; the code fails when the first byte is the
terminator, and otherwise pushes every byte before the terminator, ignoring
the result of each push_back, and returns true. -/
def append_cstr (s : ustring) (str : List Nat) : Bool × ustring :=
  let content := str.takeWhile (fun x => x != 0)
  if content = [] then (false, s)
  else (true, push_all_unchecked s content)

/-- ustring::append(char*, uint32_t) (lines 114-121): push `str_len` bytes,
each push checked. -/
def append_len (s : ustring) (bytes : List Nat) : Bool × ustring :=
  push_all s bytes

/-- ustring copy constructor (lines 328-333): bind the arena of the source,
then push each of the source content bytes onto a fresh buffer, ignoring the
result of each push_back. -/
def copy_ctor (t : ustring) : ustring :=
  push_all_unchecked ⟨⟨[], 0, t.ch_container.heapLimit⟩⟩ (t.ch_container.data.take (size t))

/-- ustring::append(ustring) (lines 127-130).  The parameter is taken by
value, so the copy constructor runs first; the code then appends the first
size bytes read through the data pointer of the copy. -/
def append_ustr (s t : ustring) : Bool × ustring :=
  let str := copy_ctor t
  append_len s (str.ch_container.data.take (size str))

/-- ustring::assign(const char*) (lines 215-228): fail when the first byte is
the terminator, otherwise clear and push every byte before the terminator,
each push checked. -/
def assign_cstr (s : ustring) (str : List Nat) : Bool × ustring :=
  let content := str.takeWhile (fun x => x != 0)
  if content = [] then (false, s)
  else push_all (clear s) content

/-- ustring::assign(char*, uint32_t) (lines 230-238): clear, then push the
given bytes, each push checked. -/
def assign_len (s : ustring) (bytes : List Nat) : Bool × ustring :=
  push_all (clear s) bytes

/-- ustring::assign(ustring) (lines 244-248).  The parameter is a by-value
copy; the code clears and then delegates to assign(char*, len) on the first
size bytes of the copy (which clears once more). -/
def assign_ustr (s t : ustring) : Bool × ustring :=
  let str := copy_ctor t
  assign_len (clear s) (str.ch_container.data.take (size str))

/-- The shrink loop of ustring::resize (lines 184-189):
`for(i = 0; i < size() - new_str_size; i++) pop_back();`.  The bound
re-reads size() after every pop, and the pop result is ignored.  The loop
runs at most `size s` times (the index grows while the bound shrinks), so
that fuel makes the fuelled recursion exact; size() never drops below the
target inside the loop, so truncated subtraction matches the uint32_t
subtraction. -/
def shrink_loop : Nat → ustring → Nat → Nat → ustring
  | 0, s, _, _ => s
  | fuel + 1, s, n, i =>
    if i < size s - n then shrink_loop fuel (pop_back s).2 n (i + 1) else s

/-- ustring::resize(uint32_t, char) (lines 180-213): equal length succeeds at
once; a larger current length runs the shrink loop; otherwise grow, reserving
first when the capacity test fails, then bulk-resize to length n+1 with the
fill value, write a terminator through back(), and pop it again. -/
def resize_fill (s : ustring) (n : Nat) (value : Nat) : Bool × ustring :=
  if size s = n then (true, s)
  else if n < size s then (true, shrink_loop (size s) s n 0)
  else if n < capacity s then
    match uvector.resize s.ch_container (n + 1) value with
    | none => (false, s)
    | some v1 =>
      let v2 := uvector.set_back v1 0
      match uvector.pop_back v2 with
      | none => (false, ⟨v2⟩)
      | some v3 => (true, ⟨v3⟩)
  else
    match uvector.reserve s.ch_container (n + 1) with
    | none => (false, s)
    | some v0 =>
      match uvector.resize v0 (n + 1) value with
      | none => (false, ⟨v0⟩)
      | some v1 =>
        let v2 := uvector.set_back v1 0
        match uvector.pop_back v2 with
        | none => (false, ⟨v2⟩)
        | some v3 => (true, ⟨v3⟩)

/-- ustring::resize(uint32_t) (lines 176-178): fill value 0. -/
def resize (s : ustring) (n : Nat) : Bool × ustring := resize_fill s n 0

/-- ustring::ustring(heap_t*) (lines 319-321): an empty buffer bound to the
given arena. -/
def mk_empty (heapLimit : Nat) : ustring := ⟨⟨[], 0, heapLimit⟩⟩

/-- ustring::ustring(uint32_t, heap_t*) (lines 314-317): bind the arena, then
resize to the requested length, ignoring the result. -/
def mk_sized (n : Nat) (heapLimit : Nat) : ustring :=
  (resize (mk_empty heapLimit) n).2

/-- ustring::ustring(const char*, heap_t*) (lines 323-326): bind the arena,
then assign the given C string, ignoring the result. -/
def mk_cstr (str : List Nat) (heapLimit : Nat) : ustring :=
  (assign_cstr (mk_empty heapLimit) str).2

/-- ustring::operator=(const ustring&) (lines 335-343): when the operand is
the receiver itself the guarded body is skipped entirely; otherwise the
receiver takes the arena of the source and pushes each source content byte,
ignoring the result of each push_back (the body never clears). -/
def op_assign (dst src : ustring) (same_object : Bool) : ustring :=
  if same_object then dst
  else
    push_all_unchecked ⟨{ dst.ch_container with heapLimit := src.ch_container.heapLimit }⟩
      (src.ch_container.data.take (size src))

/-- ustring::operator+(ustring&) (lines 345-358): build a fresh buffer of the
summed size on the arena of the left operand, clear it, then push the content
bytes of the left and right operands in turn (each at(i) read is the byte at
index i, i below the logical size), ignoring the result of each push_back. -/
def plus (a b : ustring) : ustring :=
  let self_str_len := size a
  let new_str_len := size b
  let new_string := clear (mk_sized (self_str_len + new_str_len) a.ch_container.heapLimit)
  let new_string := push_all_unchecked new_string (a.ch_container.data.take self_str_len)
  push_all_unchecked new_string (b.ch_container.data.take new_str_len)

/-- strncmp returning-zero test, as used by operator== (line 152): compare at
most n bytes, stopping early at the first difference (non-zero result) or at
a null byte found in both (zero result).  Reading past the end of a list
models reading the terminator region and yields byte 0; the facade calls stay
within the allocation for well-formed buffers. -/
def strncmp_eq : List Nat → List Nat → Nat → Bool
  | _, _, 0 => true
  | [], [], _ + 1 => true
  | [], y :: _, _ + 1 => 0 == y
  | x :: _, [], _ + 1 => x == 0
  | x :: xs, y :: ys, n + 1 =>
    if x = y then (if x = 0 then true else strncmp_eq xs ys n) else false

/-- ustring::operator==(const ustring&) (lines 148-156): sizes must match and
strncmp over size() bytes must return 0. -/
def ueq (a b : ustring) : Bool :=
  if size a ≠ size b then false
  else strncmp_eq a.ch_container.data b.ch_container.data (size b)

/-- ustring::operator!=(const ustring&) (lines 168-170): negation of ==. -/
def uneq (a b : ustring) : Bool := !(ueq a b)

/-- Logical content of a buffer: the first size() bytes of the container,
exactly the bytes an external reader addresses through data() below size(). -/
def content (s : ustring) : List Nat := s.ch_container.data.take (size s)

end ustring

/-- Concrete input: the raw bytes of the C string literal used by the
repository test suite, terminator included ("Hello World"). -/
def hello_world_bytes : List Nat :=
  [72, 101, 108, 108, 111, 32, 87, 111, 114, 108, 100, 0]

/-- Concrete input: an 11-character buffer built from "Hello World" on an
ample arena. -/
def hw_buf : ustring := ustring.mk_cstr hello_world_bytes 100

/-- Concrete input: a 2-character buffer built from "Hi" on an ample arena. -/
def hi_buf : ustring := ustring.mk_cstr [72, 105, 0] 100

/-- Concrete input: a 1-character buffer built from "X" on an ample arena. -/
def x_buf : ustring := ustring.mk_cstr [88, 0] 100

/-- Concrete input: a 2-character buffer holding "AB" with a tight capacity. -/
def ab_buf : ustring := ⟨⟨[65, 66, 0], 3, 100⟩⟩

/-- Concrete input: the buffer produced by push_back of bytes 65, 0, 66 onto
a fresh empty buffer; its content embeds a null byte. -/
def nul_b_buf : ustring :=
  (ustring.push_back (ustring.push_back
    (ustring.push_back (ustring.mk_empty 100) 65).2 0).2 66).2

/-- Concrete input: the buffer produced by push_back of bytes 65, 0, 67 onto
a fresh empty buffer; it differs from nul_b_buf only after the embedded null. -/
def nul_c_buf : ustring :=
  (ustring.push_back (ustring.push_back
    (ustring.push_back (ustring.mk_empty 100) 65).2 0).2 67).2

/-- Dropping the last element of a list with an appended terminator gives the
list back. -/
theorem dropLast_append_zero (c : List Nat) : (c ++ [0]).dropLast = c := by
  simp

/-- push_back on a terminated buffer with sound capacity succeeds and appends
the byte in front of a fresh terminator; the capacity grows minimally when the
container was full. -/
theorem push_back_term (c : List Nat) (k H x : Nat)
    (hk : c.length + 1 ≤ k) (h2 : c.length + 2 ≤ max k H) :
    ustring.push_back ⟨⟨c ++ [0], k, H⟩⟩ x
      = (true, ⟨⟨c ++ [x, 0], max k (c.length + 2), H⟩⟩) := by
  have hne : ((c ++ [0]).isEmpty) = false := by simp
  have hd : (c ++ [0]).dropLast = c := dropLast_append_zero c
  have hlt : c.length < k := hk
  by_cases hbig : c.length + 2 ≤ k
  · have hmax : max k (c.length + 2) = k := Nat.max_eq_left hbig
    simp [ustring.push_back, uvector.pop_back, uvector.push_back, uvector.reserve,
      uvector.size, hne, hd, hlt, hbig, hmax, Nat.lt_of_succ_le hbig]
  · have hkeq : k = c.length + 1 := by omega
    have hH : c.length + 2 ≤ H := by omega
    have hmax : max k (c.length + 2) = c.length + 2 := by omega
    simp [ustring.push_back, uvector.pop_back, uvector.push_back, uvector.reserve,
      uvector.size, hne, hd, hlt, hkeq, hH, hmax]

/-- push_back on a buffer with empty container succeeds whenever capacity or
arena allows two bytes, producing the byte followed by the terminator. -/
theorem push_back_nil (k H x : Nat) (h2 : 2 ≤ max k H) :
    ustring.push_back ⟨⟨[], k, H⟩⟩ x = (true, ⟨⟨[x, 0], max k 2, H⟩⟩) := by
  rcases k with _ | _ | k
  · have hH : 2 ≤ H := by omega
    have h1 : 1 ≤ H := by omega
    have hmax : max 0 2 = 2 := rfl
    simp [ustring.push_back, uvector.pop_back, uvector.push_back, uvector.reserve,
      uvector.size, h1, hH, hmax]
  · have hH : 2 ≤ H := by omega
    have hmax : max 1 2 = 2 := rfl
    simp [ustring.push_back, uvector.pop_back, uvector.push_back, uvector.reserve,
      uvector.size, hH, hmax]
  · have hmax : max (k + 2) 2 = k + 2 := by omega
    simp [ustring.push_back, uvector.pop_back, uvector.push_back, uvector.reserve,
      uvector.size, hmax]

theorem push_all_term (xs : List Nat) : ∀ (c : List Nat) (k H : Nat),
    c.length + 1 ≤ k → c.length + xs.length + 1 ≤ max k H →
    ustring.push_all ⟨⟨c ++ [0], k, H⟩⟩ xs
      = (true, ⟨⟨(c ++ xs) ++ [0], max k (c.length + xs.length + 1), H⟩⟩) := by
  induction xs with
  | nil =>
    intro c k H hk hmax
    simp [ustring.push_all]
    omega
  | cons x xs ih =>
    intro c k H hk hmax
    simp only [List.length_cons] at hmax
    have h2 : c.length + 2 ≤ max k H := by omega
    have hk2 : (c ++ [x]).length + 1 ≤ max k (c.length + 2) := by
      simp only [List.length_append, List.length_singleton]; omega
    have hmax2 : (c ++ [x]).length + xs.length + 1 ≤ max (max k (c.length + 2)) H := by
      simp only [List.length_append, List.length_singleton]; omega
    rw [ustring.push_all, push_back_term c k H x hk h2]
    show ustring.push_all ⟨⟨c ++ [x, 0], max k (c.length + 2), H⟩⟩ xs = _
    have hxx : c ++ [x, 0] = (c ++ [x]) ++ [0] := by simp
    rw [hxx, ih (c ++ [x]) (max k (c.length + 2)) H hk2 hmax2]
    simp only [Prod.mk.injEq, ustring.mk.injEq, uvector.mk.injEq, true_and, and_true,
      List.append_assoc, List.cons_append, List.nil_append, List.length_append,
      List.length_singleton, List.length_cons, List.length_nil]
    omega

theorem push_all_nil_start (x : Nat) (xs : List Nat) (k H : Nat)
    (hmax : xs.length + 2 ≤ max k H) :
    ustring.push_all ⟨⟨[], k, H⟩⟩ (x :: xs)
      = (true, ⟨⟨(x :: xs) ++ [0], max k (xs.length + 2), H⟩⟩) := by
  have h2 : 2 ≤ max k H := by omega
  have hk2 : ([x] : List Nat).length + 1 ≤ max k 2 := by
    simp only [List.length_singleton]; omega
  have hmax2 : ([x] : List Nat).length + xs.length + 1 ≤ max (max k 2) H := by
    simp only [List.length_singleton]; omega
  rw [ustring.push_all, push_back_nil k H x h2]
  show ustring.push_all ⟨⟨[x, 0], max k 2, H⟩⟩ xs = _
  have hxx : ([x, 0] : List Nat) = [x] ++ [0] := by simp
  rw [hxx, push_all_term xs [x] (max k 2) H hk2 hmax2]
  simp only [Prod.mk.injEq, ustring.mk.injEq, uvector.mk.injEq, true_and, and_true,
    List.length_singleton, List.cons_append, List.nil_append, List.singleton_append]
  omega

theorem push_all_unchecked_of (xs : List Nat) : ∀ (s s1 : ustring),
    ustring.push_all s xs = (true, s1) → ustring.push_all_unchecked s xs = s1 := by
  induction xs with
  | nil =>
    intro s s1 h
    simp [ustring.push_all] at h
    simp [ustring.push_all_unchecked, h]
  | cons x xs ih =>
    intro s s1 h
    rw [ustring.push_all] at h
    rcases hpb : ustring.push_back s x with ⟨b, s2⟩
    rw [hpb] at h
    cases b with
    | false => simp at h
    | true =>
      simp only [] at h
      have hrec := ih s2 s1 h
      simp only [ustring.push_all_unchecked, List.foldl_cons, hpb]
      simpa [ustring.push_all_unchecked] using hrec

/-- size in terms of the raw byte count: one less, with truncation at zero. -/
theorem size_eq (s : ustring) : ustring.size s = s.ch_container.data.length - 1 := by
  unfold ustring.size uvector.size
  split <;> omega

/-- size of a terminated buffer is the content length. -/
theorem size_term (c : List Nat) (k H : Nat) :
    ustring.size ⟨⟨c ++ [0], k, H⟩⟩ = c.length := by
  simp [size_eq]

/-- content of a terminated buffer is the byte run before the terminator. -/
theorem content_term (c : List Nat) (k H : Nat) :
    ustring.content ⟨⟨c ++ [0], k, H⟩⟩ = c := by
  simp [ustring.content, size_term, List.take_left]

/-- size never exceeds the raw byte count. -/
theorem size_le (s : ustring) : ustring.size s ≤ s.ch_container.data.length := by
  simp [size_eq]

/-- content has exactly size-many bytes. -/
theorem content_length (s : ustring) : (ustring.content s).length = ustring.size s := by
  simp [ustring.content]
  exact size_le s

/-- strncmp agreement is reflexive. -/
theorem strncmp_eq_refl (n : Nat) : ∀ d : List Nat, ustring.strncmp_eq d d n = true := by
  induction n with
  | zero => intro d; cases d <;> rfl
  | succ n ih =>
    intro d
    cases d with
    | nil => rfl
    | cons x xs =>
      by_cases hx : x = 0
      · simp [ustring.strncmp_eq, hx]
      · simp [ustring.strncmp_eq, hx, ih]

/-- strncmp agreement is symmetric. -/
theorem strncmp_eq_symm (n : Nat) : ∀ d1 d2 : List Nat,
    ustring.strncmp_eq d1 d2 n = ustring.strncmp_eq d2 d1 n := by
  induction n with
  | zero => intro d1 d2; cases d1 <;> cases d2 <;> rfl
  | succ n ih =>
    intro d1 d2
    cases d1 with
    | nil =>
      cases d2 with
      | nil => rfl
      | cons y ys => cases y <;> rfl
    | cons x xs =>
      cases d2 with
      | nil => cases x <;> rfl
      | cons y ys =>
        by_cases hxy : x = y
        · subst hxy
          by_cases hx : x = 0
          · simp [ustring.strncmp_eq, hx]
          · simp [ustring.strncmp_eq, hx, ih]
        · simp [ustring.strncmp_eq, hxy, Ne.symm hxy]

/-- Over null-free in-bounds prefixes, strncmp agreement is exactly prefix
equality. -/
theorem strncmp_eq_take (n : Nat) : ∀ (d1 d2 : List Nat),
    n ≤ d1.length → n ≤ d2.length →
    (∀ x ∈ d1.take n, x ≠ 0) → (∀ x ∈ d2.take n, x ≠ 0) →
    (ustring.strncmp_eq d1 d2 n = true ↔ d1.take n = d2.take n) := by
  induction n with
  | zero => intro d1 d2 _ _ _ _; cases d1 <;> cases d2 <;> simp [ustring.strncmp_eq]
  | succ n ih =>
    intro d1 d2 h1 h2 z1 z2
    cases d1 with
    | nil => simp at h1
    | cons x xs =>
      cases d2 with
      | nil => simp at h2
      | cons y ys =>
        have hx0 : x ≠ 0 := z1 x (by simp [List.take_succ_cons])
        have hy0 : y ≠ 0 := z2 y (by simp [List.take_succ_cons])
        by_cases hxy : x = y
        · subst hxy
          have hrec := ih xs ys (by simpa using h1) (by simpa using h2)
            (fun a ha => z1 a (by simp [List.take_succ_cons, ha]))
            (fun a ha => z2 a (by simp [List.take_succ_cons, ha]))
          simp [ustring.strncmp_eq, hx0, List.take_succ_cons, hrec]
        · simp [ustring.strncmp_eq, hxy, List.take_succ_cons]

/-- C1: the claim states that a successful resize(n) always leaves size() == n,
with shrinking discarding only trailing characters.  The code refutes it: the
shrink loop bound re-reads size() after every pop, so resize(5) on the
11-character buffer "Hello World" returns true yet leaves size() == 8, and the
grow path pops the terminator it has just written, so resize(10) on the
2-character buffer "Hi" returns true yet leaves size() == 9. -/
theorem claim_C1_resize_shrink_bug :
    (ustring.resize hw_buf 5).1 = true ∧
    ustring.size (ustring.resize hw_buf 5).2 = 8 ∧
    (ustring.resize hi_buf 10).1 = true ∧
    ustring.size (ustring.resize hi_buf 10).2 = 9 := by decide

/-- C2: the claim states that every completed mutating operation leaves the
last stored byte equal to the terminator 0 whenever the sequence is non-empty.
The code refutes it on the resize grow path: resize(3, 'X') on a fresh empty
buffer returns true and stores exactly the bytes [88, 88, 88], whose last
stored byte is 88, not the terminator. -/
theorem claim_C2_terminator_bug :
    (ustring.resize_fill (ustring.mk_empty 100) 3 88).1 = true ∧
    (ustring.resize_fill (ustring.mk_empty 100) 3 88).2.ch_container.data
      = [88, 88, 88] := by decide

/-- C4: the claim states that the sized constructor produces logical length
exactly N.  The code refutes it: the constructor delegates to the buggy
resize grow path, so ustring(10, heap) holds ten zero bytes but reports
size() == 9 (the last zero byte is read as the terminator). -/
theorem claim_C4_sized_ctor_bug :
    (ustring.mk_sized 10 100).ch_container.data = List.replicate 10 0 ∧
    ustring.size (ustring.mk_sized 10 100) = 9 := by decide

/-- C6: the claim states that append reports false when an internal push_back
fails from allocation.  The code refutes it: append(const char*) ignores the
result of every push_back, so on a buffer whose arena can provide nothing,
push_back of byte 65 fails, yet append of the C string "A" returns true with
the buffer left empty. -/
theorem claim_C6_append_swallows_failure :
    (ustring.push_back (ustring.mk_empty 0) 65).1 = false ∧
    (ustring.append_cstr (ustring.mk_empty 0) [65, 0]).1 = true ∧
    (ustring.append_cstr (ustring.mk_empty 0) [65, 0]).2 = ustring.mk_empty 0 := by decide

/-- C10: the claim states that empty() is true exactly when size() == 0.  The
code refutes it: empty() asks the raw container, and after pop_back reduces
the 1-character buffer "X" to logical length 0 the container still stores the
lone terminator byte, so size() == 0 while empty() returns false. -/
theorem claim_C10_empty_size_bug :
    (ustring.pop_back x_buf).1 = true ∧
    ustring.size (ustring.pop_back x_buf).2 = 0 ∧
    ustring.empty (ustring.pop_back x_buf).2 = false := by decide

/-- C7 counterexample: the claim states that a == b holds only when the byte
content below size() matches byte-for-byte.  The code uses strncmp, which
stops at the first null byte, so the two 3-character buffers with contents
[65, 0, 66] and [65, 0, 67] compare equal although their contents differ. -/
theorem claim_C7_counterexample :
    ustring.ueq nul_b_buf nul_c_buf = true ∧
    ustring.size nul_b_buf = ustring.size nul_c_buf ∧
    ustring.content nul_b_buf ≠ ustring.content nul_c_buf := by decide

/-- Setting any position of a zero-filled list to zero changes nothing. -/
theorem set_replicate_zero (m : Nat) : ∀ i : Nat,
    (List.replicate m (0 : Nat)).set i 0 = List.replicate m 0 := by
  induction m with
  | zero => intro i; rfl
  | succ m ih =>
    intro i
    cases i with
    | zero => simp [List.replicate_succ, List.set]
    | succ i => simp [List.replicate_succ, List.set, ih i]

/-- The sized constructor with a sufficient arena produces n+1 zero bytes,
then pops one of them: n zero bytes with capacity n+1. -/
theorem mk_sized_eq (n H : Nat) (h1 : 1 ≤ n) (hH : n + 1 ≤ H) :
    ustring.mk_sized n H = ⟨⟨List.replicate n 0, n + 1, H⟩⟩ := by
  have hsz : ustring.size (ustring.mk_empty H) = 0 := rfl
  have hset : (List.replicate (n + 1) (0 : Nat)).set n 0 = List.replicate (n + 1) 0 :=
    set_replicate_zero (n + 1) n
  have hdrop : (List.replicate (n + 1) (0 : Nat)).dropLast = List.replicate n 0 := by
    rw [List.replicate_succ']
    exact dropLast_append_zero (List.replicate n 0)
  have hne : n ≠ 0 := by omega
  simp [ustring.mk_sized, ustring.resize, ustring.resize_fill, ustring.mk_empty,
    ustring.size, uvector.size, ustring.capacity, uvector.capacity, uvector.reserve,
    uvector.resize, uvector.set_back, uvector.pop_back, hsz, hne, Ne.symm hne, hH,
    hset, hdrop, List.length_replicate]

/-- C5: appending or assigning a null-delimited string whose first byte is
the terminator reports false and leaves the buffer untouched, for every
buffer; both guards run before any mutation. -/
theorem claim_C5_empty_input_fails (s : ustring) (str : List Nat)
    (h : str.headD 0 = 0) :
    ustring.append_cstr s str = (false, s) ∧
    ustring.assign_cstr s str = (false, s) := by
  have hc : str.takeWhile (fun x => x != 0) = [] := by
    cases str with
    | nil => rfl
    | cons x xs =>
      simp only [List.headD_cons] at h
      simp [List.takeWhile_cons, h]
  constructor
  · simp [ustring.append_cstr, hc]
  · simp [ustring.assign_cstr, hc]

/-- Witness for C5 at the buffer "AB" and the empty C string. -/
theorem claim_C5_witness :
    (([0] : List Nat).headD 0 = 0) ∧
    (ustring.append_cstr ab_buf [0] = (false, ab_buf) ∧
     ustring.assign_cstr ab_buf [0] = (false, ab_buf)) :=
  ⟨by decide, claim_C5_empty_input_fails ab_buf [0] (by decide)⟩

/-- C9: whenever reserve(n) reports success the capacity afterwards covers n
(indeed n plus the terminator slot), for every buffer and every n, including
n = 0. -/
theorem claim_C9_reserve_capacity (s : ustring) (n : Nat)
    (h : (ustring.reserve s n).1 = true) :
    n ≤ ustring.capacity (ustring.reserve s n).2 := by
  by_cases h1 : n + 1 ≤ s.ch_container.cap
  · simp [ustring.reserve, uvector.reserve, h1, ustring.capacity, uvector.capacity]
    omega
  · by_cases h2 : n + 1 ≤ s.ch_container.heapLimit
    · simp [ustring.reserve, uvector.reserve, h1, h2, ustring.capacity, uvector.capacity]
    · simp [ustring.reserve, uvector.reserve, h1, h2] at h

/-- Witness for C9 at a fresh buffer and n = 7. -/
theorem claim_C9_witness :
    ((ustring.reserve (ustring.mk_empty 100) 7).1 = true) ∧
    7 ≤ ustring.capacity (ustring.reserve (ustring.mk_empty 100) 7).2 :=
  ⟨by decide, claim_C9_reserve_capacity (ustring.mk_empty 100) 7 (by decide)⟩

/-- The by-value copy taken by append(ustring) and assign(ustring) reproduces
the content of a terminated source when the arena can hold content plus
terminator. -/
theorem copy_ctor_term (c : List Nat) (k H : Nat) (hH : c.length + 1 ≤ H) :
    ustring.content (ustring.copy_ctor ⟨⟨c ++ [0], k, H⟩⟩) = c := by
  cases c with
  | nil =>
    simp [ustring.copy_ctor, ustring.content, ustring.size, uvector.size,
      ustring.push_all_unchecked]
  | cons x xs =>
    have hsz : ustring.size ⟨⟨(x :: xs) ++ [0], k, H⟩⟩ = (x :: xs).length :=
      size_term _ _ _
    have htake : ((x :: xs) ++ [0]).take (x :: xs).length = x :: xs :=
      List.take_left _ _
    have hmax : xs.length + 2 ≤ max 0 H := by
      simp only [List.length_cons] at hH
      omega
    have hu := push_all_unchecked_of (x :: xs) _ _ (push_all_nil_start x xs 0 H hmax)
    simp only [ustring.copy_ctor, hsz, htake, hu]
    exact content_term _ _ _

/-- C8: self-assignment is safe for every terminated buffer whose capacity
holds its bytes and whose arena can hold one temporary copy: the guarded
operator= body is skipped outright, and assign on the buffer itself reports
success, preserving content, logical length, and arena binding. -/
theorem claim_C8_self_assign (c : List Nat) (k H : Nat)
    (hk : c.length + 1 ≤ k) (hH : c.length + 1 ≤ H) :
    ustring.op_assign ⟨⟨c ++ [0], k, H⟩⟩ ⟨⟨c ++ [0], k, H⟩⟩ true = ⟨⟨c ++ [0], k, H⟩⟩ ∧
    (ustring.assign_ustr ⟨⟨c ++ [0], k, H⟩⟩ ⟨⟨c ++ [0], k, H⟩⟩).1 = true ∧
    ustring.content (ustring.assign_ustr ⟨⟨c ++ [0], k, H⟩⟩ ⟨⟨c ++ [0], k, H⟩⟩).2 = c ∧
    ustring.size (ustring.assign_ustr ⟨⟨c ++ [0], k, H⟩⟩ ⟨⟨c ++ [0], k, H⟩⟩).2 = c.length ∧
    (ustring.assign_ustr ⟨⟨c ++ [0], k, H⟩⟩ ⟨⟨c ++ [0], k, H⟩⟩).2.ch_container.heapLimit
      = H := by
  refine ⟨by simp [ustring.op_assign], ?_⟩
  have hcopy : ustring.content (ustring.copy_ctor ⟨⟨c ++ [0], k, H⟩⟩) = c :=
    copy_ctor_term c k H hH
  have hassign : ustring.assign_ustr ⟨⟨c ++ [0], k, H⟩⟩ ⟨⟨c ++ [0], k, H⟩⟩
      = ustring.push_all ⟨⟨[], k, H⟩⟩ c := by
    simp only [ustring.assign_ustr, ustring.assign_len]
    have : (ustring.copy_ctor ⟨⟨c ++ [0], k, H⟩⟩).ch_container.data.take
        (ustring.size (ustring.copy_ctor ⟨⟨c ++ [0], k, H⟩⟩))
        = ustring.content (ustring.copy_ctor ⟨⟨c ++ [0], k, H⟩⟩) := rfl
    rw [this, hcopy]
    rfl
  rw [hassign]
  cases c with
  | nil =>
    simp [ustring.push_all, ustring.content, ustring.size, uvector.size]
  | cons x xs =>
    have hmax : xs.length + 2 ≤ max k H := by
      simp only [List.length_cons] at hk
      omega
    rw [push_all_nil_start x xs k H hmax]
    have hm : max k (xs.length + 2) = k := by
      simp only [List.length_cons] at hk
      omega
    rw [hm]
    exact ⟨rfl, content_term _ _ _, size_term _ _ _, rfl⟩

/-- Witness for C8 at the buffer "AB". -/
theorem claim_C8_witness :
    (([65, 66] : List Nat).length + 1 ≤ 3 ∧ ([65, 66] : List Nat).length + 1 ≤ 100) ∧
    (ustring.op_assign ⟨⟨[65, 66] ++ [0], 3, 100⟩⟩ ⟨⟨[65, 66] ++ [0], 3, 100⟩⟩ true
        = ⟨⟨[65, 66] ++ [0], 3, 100⟩⟩ ∧
     (ustring.assign_ustr ⟨⟨[65, 66] ++ [0], 3, 100⟩⟩ ⟨⟨[65, 66] ++ [0], 3, 100⟩⟩).1 = true ∧
     ustring.content
        (ustring.assign_ustr ⟨⟨[65, 66] ++ [0], 3, 100⟩⟩ ⟨⟨[65, 66] ++ [0], 3, 100⟩⟩).2
        = [65, 66] ∧
     ustring.size
        (ustring.assign_ustr ⟨⟨[65, 66] ++ [0], 3, 100⟩⟩ ⟨⟨[65, 66] ++ [0], 3, 100⟩⟩).2
        = ([65, 66] : List Nat).length ∧
     (ustring.assign_ustr ⟨⟨[65, 66] ++ [0], 3, 100⟩⟩
        ⟨⟨[65, 66] ++ [0], 3, 100⟩⟩).2.ch_container.heapLimit = 100) :=
  ⟨⟨by decide, by decide⟩, claim_C8_self_assign [65, 66] 3 100 (by decide) (by decide)⟩

/-- C3: for every terminated buffer whose capacity holds its bytes and whose
arena covers the doubled content, appending the buffer to itself succeeds and
duplicates the content (the by-value parameter copy makes the read source
independent of the receiver), and operator+ on the buffer with itself builds a
fresh buffer holding the duplicated content while reading the operand without
writing to it. -/
theorem claim_C3_self_append_concat (c : List Nat) (k H : Nat)
    (hk : c.length + 1 ≤ k) (hH : 2 * c.length + 1 ≤ H) :
    (ustring.append_ustr ⟨⟨c ++ [0], k, H⟩⟩ ⟨⟨c ++ [0], k, H⟩⟩).1 = true ∧
    ustring.content (ustring.append_ustr ⟨⟨c ++ [0], k, H⟩⟩ ⟨⟨c ++ [0], k, H⟩⟩).2
      = c ++ c ∧
    ustring.content (ustring.plus ⟨⟨c ++ [0], k, H⟩⟩ ⟨⟨c ++ [0], k, H⟩⟩) = c ++ c := by
  have hH1 : c.length + 1 ≤ H := by omega
  have hcopy : ustring.content (ustring.copy_ctor ⟨⟨c ++ [0], k, H⟩⟩) = c :=
    copy_ctor_term c k H hH1
  have happ : ustring.append_ustr ⟨⟨c ++ [0], k, H⟩⟩ ⟨⟨c ++ [0], k, H⟩⟩
      = ustring.push_all ⟨⟨c ++ [0], k, H⟩⟩ c := by
    simp only [ustring.append_ustr, ustring.append_len]
    have : (ustring.copy_ctor ⟨⟨c ++ [0], k, H⟩⟩).ch_container.data.take
        (ustring.size (ustring.copy_ctor ⟨⟨c ++ [0], k, H⟩⟩))
        = ustring.content (ustring.copy_ctor ⟨⟨c ++ [0], k, H⟩⟩) := rfl
    rw [this, hcopy]
  have hmaxa : c.length + c.length + 1 ≤ max k H := by omega
  have hpa := push_all_term c c k H hk hmaxa
  refine ⟨by rw [happ, hpa], by rw [happ, hpa]; exact content_term _ _ _, ?_⟩
  cases c with
  | nil =>
    simp [ustring.plus, ustring.mk_sized, ustring.resize, ustring.resize_fill,
      ustring.mk_empty, ustring.clear, uvector.clear, ustring.push_all_unchecked,
      ustring.content, ustring.size, uvector.size]
  | cons x xs =>
    have hsz : ustring.size ⟨⟨(x :: xs) ++ [0], k, H⟩⟩ = (x :: xs).length :=
      size_term _ _ _
    have htake : ((x :: xs) ++ [0]).take (x :: xs).length = x :: xs :=
      List.take_left _ _
    have hone : 1 ≤ (x :: xs).length + (x :: xs).length := by
      simp only [List.length_cons]
      omega
    have hHm : (x :: xs).length + (x :: xs).length + 1 ≤ H := by
      simp only [List.length_cons] at hH ⊢
      omega
    have hmk := mk_sized_eq ((x :: xs).length + (x :: xs).length) H hone hHm
    have hclear : ustring.clear
        ⟨⟨List.replicate ((x :: xs).length + (x :: xs).length) 0,
          (x :: xs).length + (x :: xs).length + 1, H⟩⟩
        = ⟨⟨[], (x :: xs).length + (x :: xs).length + 1, H⟩⟩ := rfl
    have hmax1 : xs.length + 2 ≤ max ((x :: xs).length + (x :: xs).length + 1) H := by
      simp only [List.length_cons]
      omega
    have hp1 := push_all_unchecked_of (x :: xs) _ _
      (push_all_nil_start x xs ((x :: xs).length + (x :: xs).length + 1) H hmax1)
    have hm1 : max ((x :: xs).length + (x :: xs).length + 1) (xs.length + 2)
        = (x :: xs).length + (x :: xs).length + 1 := by
      simp only [List.length_cons]
      omega
    rw [hm1] at hp1
    have hk2 : (x :: xs).length + 1 ≤ (x :: xs).length + (x :: xs).length + 1 := by
      omega
    have hmax2 : (x :: xs).length + (x :: xs).length + 1
        ≤ max ((x :: xs).length + (x :: xs).length + 1) H := by
      omega
    have hp2 := push_all_unchecked_of (x :: xs) _ _
      (push_all_term (x :: xs) (x :: xs) ((x :: xs).length + (x :: xs).length + 1) H
        hk2 hmax2)
    have hm2 : max ((x :: xs).length + (x :: xs).length + 1)
        ((x :: xs).length + (x :: xs).length + 1)
        = (x :: xs).length + (x :: xs).length + 1 := by omega
    rw [hm2] at hp2
    simp only [ustring.plus, hsz, htake, hmk, hclear, hp1, hp2]
    exact content_term _ _ _

/-- Witness for C3 at the buffer "AB": self-append yields "ABAB" and "AB" +
"AB" yields "ABAB". -/
theorem claim_C3_witness :
    (([65, 66] : List Nat).length + 1 ≤ 3 ∧ 2 * ([65, 66] : List Nat).length + 1 ≤ 100) ∧
    ((ustring.append_ustr ⟨⟨[65, 66] ++ [0], 3, 100⟩⟩ ⟨⟨[65, 66] ++ [0], 3, 100⟩⟩).1
        = true ∧
     ustring.content
        (ustring.append_ustr ⟨⟨[65, 66] ++ [0], 3, 100⟩⟩ ⟨⟨[65, 66] ++ [0], 3, 100⟩⟩).2
        = [65, 66] ++ [65, 66] ∧
     ustring.content
        (ustring.plus ⟨⟨[65, 66] ++ [0], 3, 100⟩⟩ ⟨⟨[65, 66] ++ [0], 3, 100⟩⟩)
        = [65, 66] ++ [65, 66]) :=
  ⟨⟨by decide, by decide⟩,
    claim_C3_self_append_concat [65, 66] 3 100 (by decide) (by decide)⟩

/-- strncmp agreement over zero bytes always holds. -/
theorem strncmp_eq_zero (d1 d2 : List Nat) : ustring.strncmp_eq d1 d2 0 = true := by
  cases d1 <;> cases d2 <;> rfl

/-- C7 amended: equality compares the logical lengths and then the bytes only
up to the first embedded null (strncmp semantics); it remains reflexive and
symmetric, buffers of length 0 compare equal, inequality is the exact
negation, and over null-free content the comparison coincides with
byte-for-byte equality of the contents. -/
theorem claim_C7_equality_amended (a b : ustring) :
    ustring.ueq a a = true ∧
    ustring.ueq a b = ustring.ueq b a ∧
    (ustring.size a = 0 → ustring.size b = 0 → ustring.ueq a b = true) ∧
    ustring.uneq a b = !(ustring.ueq a b) ∧
    ((∀ x ∈ ustring.content a, x ≠ 0) → (∀ x ∈ ustring.content b, x ≠ 0) →
      (ustring.ueq a b = true ↔ ustring.content a = ustring.content b)) := by
  refine ⟨?_, ?_, ?_, rfl, ?_⟩
  · simp [ustring.ueq, strncmp_eq_refl]
  · by_cases hs : ustring.size a = ustring.size b
    · simp only [ustring.ueq, hs, ne_eq, not_true_eq_false, if_false]
      exact strncmp_eq_symm _ _ _
    · simp [ustring.ueq, hs, Ne.symm hs]
  · intro ha hb
    simp [ustring.ueq, ha, hb, strncmp_eq_zero]
  · intro z1 z2
    by_cases hs : ustring.size a = ustring.size b
    · have h1 : ustring.size b ≤ a.ch_container.data.length := hs ▸ size_le a
      have h2 : ustring.size b ≤ b.ch_container.data.length := size_le b
      have hz1 : ∀ x ∈ a.ch_container.data.take (ustring.size b), x ≠ 0 := by
        intro x hx
        exact z1 x (by simpa [ustring.content, hs] using hx)
      have hz2 : ∀ x ∈ b.ch_container.data.take (ustring.size b), x ≠ 0 := by
        intro x hx
        exact z2 x (by simpa [ustring.content] using hx)
      have hiff := strncmp_eq_take (ustring.size b) a.ch_container.data
        b.ch_container.data h1 h2 hz1 hz2
      simp only [ustring.ueq, hs, ne_eq, not_true_eq_false, if_false, hiff,
        ustring.content]
    · constructor
      · intro h
        exfalso
        simp [ustring.ueq, hs] at h
      · intro h
        exfalso
        apply hs
        rw [← content_length a, ← content_length b, h]

/-- Witness for C7 at the buffer "AB", whose content is null-free. -/
theorem claim_C7_witness :
    ((∀ x ∈ ustring.content ab_buf, x ≠ 0) ∧ (∀ x ∈ ustring.content ab_buf, x ≠ 0)) ∧
    (ustring.ueq ab_buf ab_buf = true ↔
      ustring.content ab_buf = ustring.content ab_buf) :=
  ⟨⟨by decide, by decide⟩,
    (claim_C7_equality_amended ab_buf ab_buf).2.2.2.2 (by decide) (by decide)⟩
